import Mathlib

/-!
Shallow embedding of the MIDI message-queue core of jackpatch.c from the
jessecrossen/jackdaw repository.  Ports are identified by natural numbers
and payload bytes by natural numbers.  Frame times (jack_nframes_t, an
unsigned 32-bit integer in the source) are modelled as integers: all
arithmetic the source performs keeps in-range values far below 2^32, and an
integer model makes the non-negativity invariant of the send queue a
provable statement instead of a typing artifact.  Buffer reservation by the
backend (jack_midi_event_reserve) is modelled as always succeeding; a
delivery pass returns the list of (offset, payload) writes it performs, in
the order it performs them.
-/

namespace Jackpatch

/-- A queued MIDI message, mirroring the Message struct of jackpatch.c:
destination port identity, scheduled delivery time in frames, and the
payload bytes. -/
structure Message where
  port : Nat
  time : ℤ
  data : List Nat
  deriving DecidableEq, Repr

/-- The collision rule applied at the head of the loop body of
Client_send_messages_for_port (jackpatch.c lines 183-185): if at least one
message has already been sent in this pass and the current message's time
does not exceed the last sent time, its effective time is bumped to one
frame past the last sent time. -/
def effTime (count : Nat) (lastTime t : ℤ) : ℤ :=
  if 0 < count ∧ t ≤ lastTime then lastTime + 1 else t

/-- Client_send_messages_for_port (jackpatch.c lines 158-219): one delivery
pass for port p over the send queue with period frame count n, threading the
loop state (port_send_count, last_time).  Returns the buffer writes
(offset, payload) in delivery order together with the remaining queue.
Messages for other ports are skipped without mutation; a message for p first
has the collision rule applied, then is either written and removed
(effective time < n) or rebased by subtracting n and kept. -/
def Client_send_messages_for_port (n p : Nat) :
    List Message → Nat → ℤ → List (ℤ × List Nat) × List Message
  | [], _, _ => ([], [])
  | m :: rest, count, lastTime =>
    if m.port = p then
      if effTime count lastTime m.time < (n : ℤ) then
        ((effTime count lastTime m.time, m.data) ::
            (Client_send_messages_for_port n p rest (count + 1)
              (effTime count lastTime m.time)).1,
          (Client_send_messages_for_port n p rest (count + 1)
            (effTime count lastTime m.time)).2)
      else
        ((Client_send_messages_for_port n p rest count lastTime).1,
          ⟨m.port, effTime count lastTime m.time - (n : ℤ), m.data⟩ ::
            (Client_send_messages_for_port n p rest count lastTime).2)
    else
      ((Client_send_messages_for_port n p rest count lastTime).1,
        m :: (Client_send_messages_for_port n p rest count lastTime).2)

/-- The loop state (port_send_count, last_time) of
Client_send_messages_for_port after scanning a list of queue entries,
starting from a given state.  Used to talk about the state in effect when
the scan reaches an entry at an arbitrary queue position. -/
def passState (n p : Nat) : List Message → Nat → ℤ → Nat × ℤ
  | [], c, l => (c, l)
  | m :: rest, c, l =>
    if m.port = p then
      if effTime c l m.time < (n : ℤ) then
        passState n p rest (c + 1) (effTime c l m.time)
      else
        passState n p rest c l
    else passState n p rest c l

/-- The sorted insertion performed by Port_send (jackpatch.c lines 632-667):
scan from the head and insert the new message immediately before the first
entry with a strictly greater time; if no such entry exists, append at the
end.  The empty-queue case (lines 633-635) makes the message the head. -/
def enqueue (q : List Message) (m : Message) : List Message :=
  match q with
  | [] => [m]
  | c :: rest => if m.time < c.time then m :: c :: rest else c :: enqueue rest m

/-- Time conversion performed by Port_send (jackpatch.c line 622):
message->time = (jack_nframes_t)(time * (double)sample_rate).  The C cast
from double to an unsigned integer truncates toward zero, which for the
non-negative times this module handles is the floor.  Modelled with exact
rational arithmetic. -/
def toFrames (t : ℚ) (rate : Nat) : ℤ := ⌊t * (rate : ℚ)⌋

/-- Time conversion performed by Port_receive (jackpatch.c line 687):
double time = (double)message->time / (double)sample_rate. -/
def toSeconds (t : ℤ) (rate : Nat) : ℚ := (t : ℚ) / (rate : ℚ)

/-- Error conditions Port_send can signal.  The source raises a Python
error and returns NULL only when malloc fails (jackpatch.c lines 616-619);
the invalidArgument condition exists in the error model of the spec but no
code path of Port_send produces it for payload length: the source contains
no payload-length check (BUFFER_SIZE is used only for diagnostic message
buffers). -/
inductive SendError where
  | invalidArgument
  | resourceExhausted
  deriving DecidableEq, Repr

/-- The payload maximum named by the spec (historically 1024 bytes).  The
source defines BUFFER_SIZE 1024 but never compares payload lengths
against it. -/
def MAX_PAYLOAD : Nat := 1024

/-- Port_send (jackpatch.c lines 598-669): allocate a message (failure is
reported immediately as an error), fill it with the destination port, the
converted time and the payload bytes, and insert it into the client's send
queue in time order.  The allocation outcome is an explicit oracle
argument; no validation of the payload length is performed, mirroring the
source. -/
def Port_send (allocOk : Bool) (p : Nat) (data : List Nat) (t : ℚ)
    (rate : Nat) (q : List Message) : Except SendError (List Message) :=
  if allocOk = false then Except.error SendError.resourceExhausted
  else Except.ok (enqueue q ⟨p, toFrames t rate, data⟩)

/-- Port_receive (jackpatch.c lines 671-717): scan the receive queue from
the head, remove and return the first entry whose port matches, converting
its time to seconds; return none (Py_RETURN_NONE) when no entry matches.
The function never fails and never blocks: it is a total linear scan. -/
def Port_receive (p : Nat) (rate : Nat) :
    List Message → Option (List Nat × ℚ) × List Message
  | [] => (none, [])
  | m :: rest =>
    if m.port = p then (some (m.data, toSeconds m.time rate), rest)
    else ((Port_receive p rate rest).1, m :: (Port_receive p rate rest).2)

/-- The send phase of Client_process (jackpatch.c lines 282-286): run one
delivery pass per registered send port, in port-array order, each pass
starting from loop state (0, 0).  Returns the per-port write batches and
the final queue. -/
def Client_process (n : Nat) :
    List Nat → List Message → List (Nat × List (ℤ × List Nat)) × List Message
  | [], q => ([], q)
  | p :: ps, q =>
    ((p, (Client_send_messages_for_port n p q 0 0).1) ::
        (Client_process n ps (Client_send_messages_for_port n p q 0 0).2).1,
      (Client_process n ps (Client_send_messages_for_port n p q 0 0).2).2)

/-- Iterated invocations of the period scheduler's send phase: k successive
periods, each of n frames, over the same registered send ports. -/
def Client_process_iter (n : Nat) (ps : List Nat) : Nat → List Message → List Message
  | 0, q => q
  | k + 1, q => Client_process_iter n ps k (Client_process n ps q).2

/-- The limit on managed ports per client (jackpatch.c line 11). -/
def MAX_PORTS_PER_CLIENT : Nat := 256

/-- JACK port direction flag for input ports (bit 0). -/
def JackPortIsInput : Nat := 1

/-- JACK port direction flag for output ports (bit 1). -/
def JackPortIsOutput : Nat := 2

/-- The client state relevant to message scheduling: the registered send
and receive port arrays and the send queue, mirroring the Client struct of
jackpatch.c. -/
structure Client where
  send_ports : List Nat
  receive_ports : List Nat
  midi_send_queue : List Message
  deriving DecidableEq, Repr

/-- The port-registration logic of Port_init (jackpatch.c lines 550-582):
a pre-existing port found by jack_port_by_name is not registered at all
(is_mine stays 0); a newly created port is registered in the receive array
when the input flag is set, in the send array when the output flag is set,
and in neither when the matching array is already full
(MAX_PORTS_PER_CLIENT) or when neither direction flag is set. -/
def Port_init (c : Client) (portExists : Bool) (p : Nat) (flags : Nat) : Client :=
  if portExists then c
  else if flags &&& JackPortIsInput ≠ 0 then
    if MAX_PORTS_PER_CLIENT ≤ c.receive_ports.length then c
    else ⟨c.send_ports, c.receive_ports ++ [p], c.midi_send_queue⟩
  else if flags &&& JackPortIsOutput ≠ 0 then
    if MAX_PORTS_PER_CLIENT ≤ c.send_ports.length then c
    else ⟨c.send_ports ++ [p], c.receive_ports, c.midi_send_queue⟩
  else c

/-- Client_dealloc (jackpatch.c lines 412-438): teardown zeroes the port
counts and frees every queued message, leaving empty queues. -/
def Client_dealloc (_c : Client) : Client := ⟨[], [], []⟩

/-- Every write performed by a delivery pass has its offset below the period
frame count, and, when the pass state records at least one prior send,
strictly above the last sent time. -/
lemma sp_writes_bounds (n p : Nat) :
    ∀ (q : List Message) (c : Nat) (l : ℤ) (w : ℤ × List Nat),
      w ∈ (Client_send_messages_for_port n p q c l).1 →
        w.1 < (n : ℤ) ∧ (0 < c → l < w.1) := by
  intro q
  induction q with
  | nil => intro c l w hw; simp [Client_send_messages_for_port] at hw
  | cons m rest ih =>
    intro c l w hw
    by_cases hp : m.port = p
    · by_cases ht : effTime c l m.time < (n : ℤ)
      · rw [Client_send_messages_for_port, if_pos hp, if_pos ht] at hw
        have hlt : 0 < c → l < effTime c l m.time := by
          intro hc
          rw [effTime]
          by_cases hb : 0 < c ∧ m.time ≤ l
          · rw [if_pos hb]; exact lt_add_one l
          · rw [if_neg hb]
            push_neg at hb
            exact hb hc
        rcases List.mem_cons.mp hw with h | h
        · subst h
          exact ⟨ht, hlt⟩
        · have h2 := ih (c + 1) (effTime c l m.time) w h
          exact ⟨h2.1, fun hc => lt_trans (hlt hc) (h2.2 (Nat.succ_pos _))⟩
      · rw [Client_send_messages_for_port, if_pos hp, if_neg ht] at hw
        exact ih c l w hw
    · rw [Client_send_messages_for_port, if_neg hp] at hw
      exact ih c l w hw

/-- The offsets written by a delivery pass form a strictly increasing
chain, from any starting state. -/
lemma sp_writes_chain (n p : Nat) :
    ∀ (q : List Message) (c : Nat) (l : ℤ),
      List.Chain' (fun a b : ℤ => a < b)
        (((Client_send_messages_for_port n p q c l).1).map Prod.fst) := by
  intro q
  induction q with
  | nil => intro c l; simp [Client_send_messages_for_port]
  | cons m rest ih =>
    intro c l
    by_cases hp : m.port = p
    · by_cases ht : effTime c l m.time < (n : ℤ)
      · rw [Client_send_messages_for_port, if_pos hp, if_pos ht]
        rw [List.map_cons]
        refine List.chain'_cons'.mpr ⟨?_, ih (c + 1) (effTime c l m.time)⟩
        intro b hb
        have hbm : b ∈ ((Client_send_messages_for_port n p rest (c + 1)
            (effTime c l m.time)).1).map Prod.fst := List.mem_of_mem_head? hb
        obtain ⟨w, hw, rfl⟩ := List.mem_map.mp hbm
        exact (sp_writes_bounds n p rest (c + 1) (effTime c l m.time) w hw).2
          (Nat.succ_pos c)
      · rw [Client_send_messages_for_port, if_pos hp, if_neg ht]
        exact ih c l
    · rw [Client_send_messages_for_port, if_neg hp]
      exact ih c l

/-- A delivery pass for port p leaves the subsequence of queue entries
addressed to any other port x exactly as it was. -/
lemma sp_filter_ne (n p x : Nat) (hxp : x ≠ p) :
    ∀ (q : List Message) (c : Nat) (l : ℤ),
      ((Client_send_messages_for_port n p q c l).2).filter (fun m => m.port == x) =
        q.filter (fun m => m.port == x) := by
  intro q
  induction q with
  | nil => intro c l; simp [Client_send_messages_for_port]
  | cons m rest ih =>
    intro c l
    by_cases hp : m.port = p
    · have hmx : (m.port == x) = false := by
        simp only [beq_eq_false_iff_ne, ne_eq, hp]
        exact fun h => hxp h.symm
      by_cases ht : effTime c l m.time < (n : ℤ)
      · rw [Client_send_messages_for_port, if_pos hp, if_pos ht]
        dsimp only
        rw [ih (c + 1) (effTime c l m.time), List.filter_cons, hmx]
        simp
      · rw [Client_send_messages_for_port, if_pos hp, if_neg ht]
        dsimp only
        rw [List.filter_cons, List.filter_cons]
        simp only [hmx]
        exact ih c l
    · rw [Client_send_messages_for_port, if_neg hp]
      dsimp only
      rw [List.filter_cons, List.filter_cons, ih c l]

/-- A delivery pass over a concatenation splits into the pass over the
first part followed by the pass over the second part started in the loop
state the first part produces. -/
lemma sp_append (n p : Nat) :
    ∀ (pre post : List Message) (c : Nat) (l : ℤ),
      Client_send_messages_for_port n p (pre ++ post) c l =
        ((Client_send_messages_for_port n p pre c l).1 ++
            (Client_send_messages_for_port n p post (passState n p pre c l).1
              (passState n p pre c l).2).1,
          (Client_send_messages_for_port n p pre c l).2 ++
            (Client_send_messages_for_port n p post (passState n p pre c l).1
              (passState n p pre c l).2).2) := by
  intro pre
  induction pre with
  | nil =>
    intro post c l
    simp [Client_send_messages_for_port, passState]
  | cons m rest ih =>
    intro post c l
    by_cases hp : m.port = p
    · by_cases ht : effTime c l m.time < (n : ℤ)
      · rw [List.cons_append, Client_send_messages_for_port, if_pos hp, if_pos ht,
          Client_send_messages_for_port, if_pos hp, if_pos ht,
          passState, if_pos hp, if_pos ht]
        dsimp only
        rw [ih post (c + 1) (effTime c l m.time)]
        simp
      · rw [List.cons_append, Client_send_messages_for_port, if_pos hp, if_neg ht,
          Client_send_messages_for_port, if_pos hp, if_neg ht,
          passState, if_pos hp, if_neg ht]
        dsimp only
        rw [ih post c l]
        simp
    · rw [List.cons_append, Client_send_messages_for_port, if_neg hp,
        Client_send_messages_for_port, if_neg hp, passState, if_neg hp]
      dsimp only
      rw [ih post c l]
      simp

/-- C1: for every invocation of the delivery pass with frame count n and
every send-queue entry addressed to the serviced port (at an arbitrary
queue position, with (c, l) the loop state produced by the preceding
entries and t the entry's effective time after the collision rule): if
t < n the payload is written at offset t and the entry is removed from the
queue; otherwise exactly n is subtracted from its time and it stays queued
in place.  Buffer reservation is modelled as succeeding. -/
theorem send_entry_delivery_dichotomy (n p : Nat) (c : Nat) (l t : ℤ)
    (pre post : List Message) (m : Message)
    (hm : m.port = p) (hs : passState n p pre 0 0 = (c, l))
    (ht : effTime c l m.time = t) :
    (t < (n : ℤ) →
      Client_send_messages_for_port n p (pre ++ m :: post) 0 0 =
        ((Client_send_messages_for_port n p pre 0 0).1 ++
            (t, m.data) :: (Client_send_messages_for_port n p post (c + 1) t).1,
          (Client_send_messages_for_port n p pre 0 0).2 ++
            (Client_send_messages_for_port n p post (c + 1) t).2)) ∧
    ((n : ℤ) ≤ t →
      Client_send_messages_for_port n p (pre ++ m :: post) 0 0 =
        ((Client_send_messages_for_port n p pre 0 0).1 ++
            (Client_send_messages_for_port n p post c l).1,
          (Client_send_messages_for_port n p pre 0 0).2 ++
            ⟨m.port, t - (n : ℤ), m.data⟩ ::
              (Client_send_messages_for_port n p post c l).2)) := by
  constructor
  · intro hlt
    rw [sp_append n p pre (m :: post) 0 0, hs]
    rw [Client_send_messages_for_port, if_pos hm, ht, if_pos hlt]
  · intro hge
    rw [sp_append n p pre (m :: post) 0 0, hs]
    rw [Client_send_messages_for_port, if_pos hm, ht, if_neg (not_lt.mpr hge)]

/-- Witness for C1 at a concrete queue: the entry with time 1 after one
delivered message is bumped to effective time 2 in a 4-frame period,
written at offset 2 and removed. -/
theorem send_entry_delivery_dichotomy_witness :
    Client_send_messages_for_port 4 0 ([⟨0, 1, [5]⟩] ++ ⟨0, 1, [6]⟩ :: [⟨0, 9, [7]⟩]) 0 0 =
      ((Client_send_messages_for_port 4 0 [⟨0, 1, [5]⟩] 0 0).1 ++
          ((2 : ℤ), [6]) :: (Client_send_messages_for_port 4 0 [⟨0, 9, [7]⟩] 2 2).1,
        (Client_send_messages_for_port 4 0 [⟨0, 1, [5]⟩] 0 0).2 ++
          (Client_send_messages_for_port 4 0 [⟨0, 9, [7]⟩] 2 2).2) :=
  (send_entry_delivery_dichotomy 4 0 1 1 2 [⟨0, 1, [5]⟩] [⟨0, 9, [7]⟩] ⟨0, 1, [6]⟩
    rfl (by decide) (by decide)).1 (by decide)

/-- C2: within one port's delivery pass of one period (loop state starting
at (0, 0) as Client_process invokes it), the sequence of offsets written is
strictly increasing, so no two events for one port are written at the same
offset in one period. -/
theorem send_pass_offsets_strictly_increasing (n p : Nat) (q : List Message) :
    List.Sorted (fun a b : ℤ => a < b)
      (((Client_send_messages_for_port n p q 0 0).1).map Prod.fst) ∧
    List.Pairwise (fun a b : ℤ => a ≠ b)
      (((Client_send_messages_for_port n p q 0 0).1).map Prod.fst) := by
  have h := sp_writes_chain n p q 0 0
  have hs := List.chain'_iff_pairwise.mp h
  exact ⟨hs, hs.imp ne_of_lt⟩


lemma mem_enqueue (m x : Message) : ∀ q, x ∈ enqueue q m ↔ x = m ∨ x ∈ q := by
  intro q
  induction q with
  | nil => simp [enqueue]
  | cons c rest ih =>
    rw [enqueue]
    by_cases h : m.time < c.time
    · rw [if_pos h]
      simp [List.mem_cons]
    · rw [if_neg h]
      simp [List.mem_cons, ih]
      tauto

/-- C3: Port_send insertion keeps the send queue sorted ascending by time
when it was sorted, and the message lands immediately before the first
existing entry with a strictly greater time, after every entry whose time
is less than or equal (stable tie placement preserving submission order). -/
theorem enqueue_sorted_stable (m : Message) (q : List Message) :
    (List.Pairwise (fun a b : Message => a.time ≤ b.time) q →
      List.Pairwise (fun a b : Message => a.time ≤ b.time) (enqueue q m)) ∧
    enqueue q m = q.takeWhile (fun x => decide (x.time ≤ m.time)) ++
      m :: q.dropWhile (fun x => decide (x.time ≤ m.time)) := by
  constructor
  · induction q with
    | nil => intro _; simp [enqueue]
    | cons c rest ih =>
      intro hq
      rw [List.pairwise_cons] at hq
      rw [enqueue]
      by_cases h : m.time < c.time
      · rw [if_pos h]
        refine List.pairwise_cons.mpr ⟨?_, List.pairwise_cons.mpr ⟨hq.1, hq.2⟩⟩
        intro y hy
        rcases List.mem_cons.mp hy with rfl | hy2
        · exact le_of_lt h
        · exact le_trans (le_of_lt h) (hq.1 y hy2)
      · rw [if_neg h]
        refine List.pairwise_cons.mpr ⟨?_, ih hq.2⟩
        intro y hy
        rcases (mem_enqueue m y rest).mp hy with rfl | hy2
        · exact not_lt.mp h
        · exact hq.1 y hy2
  · induction q with
    | nil => simp [enqueue]
    | cons c rest ih =>
      rw [enqueue]
      by_cases h : m.time < c.time
      · rw [if_pos h, List.takeWhile_cons, List.dropWhile_cons]
        have hd : (decide (c.time ≤ m.time)) = false := by
          simp [not_le.mpr h]
        rw [hd]
        simp
      · rw [if_neg h, List.takeWhile_cons, List.dropWhile_cons]
        have hd : (decide (c.time ≤ m.time)) = true := by
          simp [not_lt.mp h]
        rw [hd]
        simp [ih]

theorem enqueue_sorted_stable_witness :
    List.Pairwise (fun a b : Message => a.time ≤ b.time)
      (enqueue [⟨0, 1, [1]⟩, ⟨0, 2, [2]⟩] ⟨0, 1, [3]⟩) :=
  (enqueue_sorted_stable ⟨0, 1, [3]⟩ [⟨0, 1, [1]⟩, ⟨0, 2, [2]⟩]).1 (by decide)

/-- C4 counterexample: a payload of 1025 bytes exceeds the configured
maximum the spec names, yet Port_send performs no length check: with
allocation succeeding it enqueues the message and returns success instead
of the InvalidArgument error the claim requires. -/
theorem oversized_payload_is_accepted :
    MAX_PAYLOAD < (List.replicate 1025 (0 : Nat)).length ∧
    Port_send true 0 (List.replicate 1025 (0 : Nat)) 0 48000 [] =
      Except.ok [⟨0, 0, List.replicate 1025 (0 : Nat)⟩] := by
  constructor
  · rw [List.length_replicate]
    norm_num [MAX_PAYLOAD]
  · rw [Port_send]
    norm_num [enqueue, toFrames]

/-- C4 amended: Port_send fails exactly when allocation fails, and the only
error it ever signals is resourceExhausted, reported immediately; payload
length is never validated, so any payload is enqueued on success. -/
theorem Port_send_error_model (allocOk : Bool) (p : Nat) (data : List Nat)
    (t : ℚ) (rate : Nat) (q : List Message) :
    ((∃ q2, Port_send allocOk p data t rate q = Except.ok q2) ↔ allocOk = true) ∧
    (∀ e, Port_send allocOk p data t rate q = Except.error e →
      e = SendError.resourceExhausted) ∧
    Port_send true p data t rate q =
      Except.ok (enqueue q ⟨p, toFrames t rate, data⟩) := by
  cases allocOk <;> simp [Port_send]

theorem Port_send_error_model_witness :
    ((∃ q2, Port_send false 0 [] 0 1 [] = Except.ok q2) ↔ false = true) ∧
    (∀ e, Port_send false 0 [] 0 1 [] = Except.error e →
      e = SendError.resourceExhausted) ∧
    Port_send true 0 [] 0 1 [] =
      Except.ok (enqueue [] ⟨0, toFrames 0 1, []⟩) :=
  Port_send_error_model false 0 [] 0 1 []

/-- C7 counterexample: at 0.75 seconds (exactly representable) and sample
rate 2, the source's cast computes floor(1.5) = 1 while round(1.5) = 2. -/
theorem toFrames_truncates_cex :
    toFrames (3 / 4) 2 = 1 ∧ round ((3 / 4 : ℚ) * ((2 : Nat) : ℚ)) = 2 ∧
    ((1 : ℤ) ≠ 2) := by
  refine ⟨?_, ?_, by decide⟩
  · rw [toFrames, show (3 / 4 : ℚ) * ((2 : Nat) : ℚ) = 3 / 2 by norm_num]
    rw [Int.floor_eq_iff]
    norm_num
  · rw [round_eq, show (3 / 4 : ℚ) * ((2 : Nat) : ℚ) + 1 / 2 = 2 by norm_num]
    exact_mod_cast Int.floor_intCast 2

/-- C7 amended: for non-negative seconds the conversion in Port_send is the
floor (truncation toward zero) of seconds times sample rate: it is the
unique integer within one frame below the exact product, and never
negative. -/
theorem toFrames_floor_characterization (t : ℚ) (rate : Nat) (h0 : 0 ≤ t) :
    ((toFrames t rate : ℚ) ≤ t * (rate : ℚ)) ∧
    (t * (rate : ℚ) < (toFrames t rate : ℚ) + 1) ∧
    (0 ≤ toFrames t rate) := by
  refine ⟨Int.floor_le _, Int.lt_floor_add_one _, Int.floor_nonneg.mpr ?_⟩
  exact mul_nonneg h0 (Nat.cast_nonneg rate)

theorem toFrames_floor_characterization_witness :
    ((toFrames (3 / 4) 2 : ℚ) ≤ (3 / 4 : ℚ) * ((2 : Nat) : ℚ)) ∧
    ((3 / 4 : ℚ) * ((2 : Nat) : ℚ) < (toFrames (3 / 4) 2 : ℚ) + 1) ∧
    (0 ≤ toFrames (3 / 4) 2) :=
  toFrames_floor_characterization (3 / 4) 2 (by norm_num)



/-- C5 counterexample: two messages for port 0 both scheduled at time 1,
the last frame of a 2-frame period.  The claim says both are delivered in
the same period at offsets 1 and 2; the code delivers only the first (a
2-frame period has no offset 2): the second is bumped to the period
boundary, rebased to time 0 and carried to the next period. -/
theorem equal_time_last_frame_cex :
    Client_send_messages_for_port 2 0 [⟨0, 1, [1]⟩, ⟨0, 1, [2]⟩] 0 0 =
      ([((1 : ℤ), [1])], [⟨0, 0, [2]⟩]) ∧
    (Client_send_messages_for_port 2 0 [⟨0, 1, [1]⟩, ⟨0, 1, [2]⟩] 0 0).1.length ≠ 2 := by
  decide

/-- C5 amended: two messages for the same port with equal time t (0 ≤ t)
are delivered at offsets t and t + 1 in the same period when t + 1 < n, and
never at the same offset; when t is the last frame (t + 1 = n) the second
message is not delivered that period: it is carried forward with time 0 and
delivered at offset 0 of the next period. -/
theorem equal_time_pair_delivery (n p : Nat) (t : ℤ) (d1 d2 : List Nat)
    (hn : 0 < n) :
    (t + 1 < (n : ℤ) →
      Client_send_messages_for_port n p [⟨p, t, d1⟩, ⟨p, t, d2⟩] 0 0 =
        ([(t, d1), (t + 1, d2)], [])) ∧
    (t + 1 = (n : ℤ) →
      Client_send_messages_for_port n p [⟨p, t, d1⟩, ⟨p, t, d2⟩] 0 0 =
        ([(t, d1)], [⟨p, 0, d2⟩]) ∧
      Client_send_messages_for_port n p [⟨p, 0, d2⟩] 0 0 = ([(0, d2)], [])) := by
  constructor
  · intro h
    have ht : t < (n : ℤ) := lt_trans (lt_add_one t) h
    simp [Client_send_messages_for_port, effTime, ht, h]
  · intro h
    have ht : t < (n : ℤ) := h ▸ lt_add_one t
    have h0 : (0 : ℤ) < (n : ℤ) := by exact_mod_cast hn
    constructor
    · simp [Client_send_messages_for_port, effTime, ht, h]
    · simp [Client_send_messages_for_port, effTime, h0]

theorem equal_time_pair_delivery_witness :
    ((1 : ℤ) + 1 < ((4 : Nat) : ℤ) →
      Client_send_messages_for_port 4 0 [⟨0, 1, [1]⟩, ⟨0, 1, [2]⟩] 0 0 =
        ([((1 : ℤ), [1]), ((1 : ℤ) + 1, [2])], [])) ∧
    ((1 : ℤ) + 1 = ((4 : Nat) : ℤ) →
      Client_send_messages_for_port 4 0 [⟨0, 1, [1]⟩, ⟨0, 1, [2]⟩] 0 0 =
        ([((1 : ℤ), [1])], [⟨0, 0, [2]⟩]) ∧
      Client_send_messages_for_port 4 0 [⟨0, 0, [2]⟩] 0 0 = ([(0, [2])], [])) :=
  equal_time_pair_delivery 4 0 1 [1] [2] (by decide)

/-- C6 counterexample: three messages for port 0 all due at time 0 in a
2-frame period.  The first two are delivered at offsets 0 and 1; the
collision rule bumps the third to the period boundary, so a message whose
scheduled_time had reached 0 at the start of the period is not delivered in
that period's pass: it is carried forward (with time 0). -/
theorem due_message_carried_over_cex :
    Client_send_messages_for_port 2 0 [⟨0, 0, [1]⟩, ⟨0, 0, [2]⟩, ⟨0, 0, [3]⟩] 0 0 =
      ([((0 : ℤ), [1]), (1, [2])], [⟨0, 0, [3]⟩]) ∧
    (⟨0, 0, [3]⟩ : Message).time = 0 := by decide

/-- C6 amended: scheduled times stay non-negative (a queue of non-negative
times is rebased to a queue of non-negative times: subtraction of n happens
only at effective times of at least n), and a message whose time is 0 at
the start of its port's pass is delivered in that pass whenever its
effective time after collision resolution is still inside the period;
the only other possibility is that the collision rule bumped it exactly to
the period boundary, in which case it stays queued with time exactly 0 for
a later period, never with a negative value. -/
theorem due_message_nonneg_delivery (n p : Nat) (hn : 0 < n) :
    (∀ (q : List Message) (c : Nat) (l : ℤ), (∀ m ∈ q, 0 ≤ m.time) →
      ∀ m2 ∈ (Client_send_messages_for_port n p q c l).2, 0 ≤ m2.time) ∧
    (∀ (d : List Nat) (rest : List Message) (c : Nat) (l : ℤ),
      (0 < c → 0 ≤ l ∧ l < (n : ℤ)) →
      effTime c l 0 ≤ (n : ℤ) ∧
      (effTime c l 0 < (n : ℤ) →
        Client_send_messages_for_port n p (⟨p, 0, d⟩ :: rest) c l =
          ((effTime c l 0, d) ::
              (Client_send_messages_for_port n p rest (c + 1) (effTime c l 0)).1,
            (Client_send_messages_for_port n p rest (c + 1) (effTime c l 0)).2)) ∧
      (effTime c l 0 = (n : ℤ) →
        Client_send_messages_for_port n p (⟨p, 0, d⟩ :: rest) c l =
          ((Client_send_messages_for_port n p rest c l).1,
            ⟨p, 0, d⟩ :: (Client_send_messages_for_port n p rest c l).2))) := by
  constructor
  · intro q
    induction q with
    | nil => intro c l _ m2 hm2; simp [Client_send_messages_for_port] at hm2
    | cons m rest ih =>
      intro c l hq m2 hm2
      have hqr : ∀ m3 ∈ rest, 0 ≤ m3.time := fun m3 h3 => hq m3 (List.mem_cons_of_mem m h3)
      by_cases hp : m.port = p
      · by_cases ht : effTime c l m.time < (n : ℤ)
        · rw [Client_send_messages_for_port, if_pos hp, if_pos ht] at hm2
          exact ih (c + 1) (effTime c l m.time) hqr m2 hm2
        · rw [Client_send_messages_for_port, if_pos hp, if_neg ht] at hm2
          rcases List.mem_cons.mp hm2 with rfl | h2
          · exact sub_nonneg.mpr (not_lt.mp ht)
          · exact ih c l hqr m2 h2
      · rw [Client_send_messages_for_port, if_neg hp] at hm2
        rcases List.mem_cons.mp hm2 with rfl | h2
        · exact hq _ (List.mem_cons_self _ _)
        · exact ih c l hqr m2 h2
  · intro d rest c l hcl
    have hnn : (0 : ℤ) < (n : ℤ) := by exact_mod_cast hn
    refine ⟨?_, ?_, ?_⟩
    · rw [effTime]
      by_cases hc : 0 < c ∧ (0 : ℤ) ≤ l
      · rw [if_pos hc]
        have := (hcl hc.1).2
        omega
      · rw [if_neg hc]
        exact le_of_lt hnn
    · intro h
      rw [Client_send_messages_for_port, if_pos rfl, if_pos h]
    · intro h
      rw [Client_send_messages_for_port, if_pos rfl, if_neg (h ▸ lt_irrefl ((n : ℤ)))]
      rw [h, sub_self]

theorem due_message_nonneg_delivery_witness :
    Client_send_messages_for_port 2 0 ((⟨0, 0, [3]⟩ : Message) :: []) 1 1 =
      ((Client_send_messages_for_port 2 0 [] 1 1).1,
        ⟨0, 0, [3]⟩ :: (Client_send_messages_for_port 2 0 [] 1 1).2) :=
  (((due_message_nonneg_delivery 2 0 (by decide)).2 [3] [] 1 1
    (by intro h; exact ⟨by decide, by decide⟩)).2.2) (by decide)



/-- C8: Port_receive returns the explicit no-message result on an empty
receive queue and whenever no entry matches the port, leaving the queue
untouched; otherwise it removes and returns the first matching entry with
its time converted to seconds, preserving the relative order of every
remaining entry.  It is a total function: it never blocks and never
signals an error. -/
theorem receive_first_match (p rate : Nat) :
    Port_receive p rate [] = (none, []) ∧
    (∀ q : List Message, (∀ m ∈ q, m.port ≠ p) → Port_receive p rate q = (none, q)) ∧
    (∀ (pre : List Message) (m : Message) (post : List Message),
      (∀ x ∈ pre, x.port ≠ p) → m.port = p →
      Port_receive p rate (pre ++ m :: post) =
        (some (m.data, toSeconds m.time rate), pre ++ post)) := by
  refine ⟨rfl, ?_, ?_⟩
  · intro q
    induction q with
    | nil => intro _; rfl
    | cons m rest ih =>
      intro hq
      rw [Port_receive, if_neg (hq m (List.mem_cons_self _ _))]
      rw [ih fun m3 h3 => hq m3 (List.mem_cons_of_mem m h3)]
  · intro pre
    induction pre with
    | nil =>
      intro m post _ hm
      rw [List.nil_append, Port_receive, if_pos hm, List.nil_append]
    | cons x pre2 ih =>
      intro m post hpre hm
      rw [List.cons_append, Port_receive, if_neg (hpre x (List.mem_cons_self _ _)),
        ih m post (fun y hy => hpre y (List.mem_cons_of_mem x hy)) hm,
        List.cons_append]

theorem receive_first_match_witness :
    Port_receive 0 2 ([⟨1, 0, []⟩] ++ (⟨0, 1, [7]⟩ : Message) :: [⟨0, 2, [8]⟩]) =
      (some ([7], toSeconds 1 2), [⟨1, 0, []⟩] ++ [⟨0, 2, [8]⟩]) :=
  (receive_first_match 0 2).2.2 [⟨1, 0, []⟩] ⟨0, 1, [7]⟩ [⟨0, 2, [8]⟩]
    (by decide) rfl

/-- C9 counterexample: period of 2 frames, two messages for port 0 at time
1.  The first is delivered at offset 1; the collision bump rewrites the
second entry's stored time in place (to 2, the period boundary), so it is
not delivered and survives the pass rebased to time 0 — an entry that
remains in the send queue after the pass whose stored scheduled_time the
bump changed (its pre-pass time 1 was below the frame count 2, and 0 is
not 1 minus 2). -/
theorem bump_changes_surviving_entry_cex :
    Client_send_messages_for_port 2 0 [⟨0, 1, [9]⟩, ⟨0, 1, [10]⟩] 0 0 =
      ([((1 : ℤ), [9])], [⟨0, 0, [10]⟩]) ∧
    ¬ ((2 : ℤ) ≤ 1) ∧ ((0 : ℤ) ≠ 1) := by decide

/-- C9 amended: the collision bump mutates only the entry the scan is
currently examining: entries addressed to any other port survive the pass
exactly as they were; and when the bump pushes the examined entry exactly
to the period boundary (last sent time l with l + 1 = n) that entry itself
remains queued with its bumped time rebased to 0. -/
theorem bump_mutates_only_examined (n p x : Nat) (hxp : x ≠ p) :
    (∀ (q : List Message) (c : Nat) (l : ℤ),
      ((Client_send_messages_for_port n p q c l).2).filter (fun m => m.port == x) =
        q.filter (fun m => m.port == x)) ∧
    (∀ (m : Message) (rest : List Message) (c : Nat) (l : ℤ),
      m.port = p → 0 < c → m.time ≤ l → l + 1 = (n : ℤ) →
      Client_send_messages_for_port n p (m :: rest) c l =
        ((Client_send_messages_for_port n p rest c l).1,
          ⟨m.port, 0, m.data⟩ :: (Client_send_messages_for_port n p rest c l).2)) := by
  constructor
  · exact sp_filter_ne n p x hxp
  · intro m rest c l hm hc hle hl
    have he : effTime c l m.time = (n : ℤ) := by
      rw [effTime, if_pos ⟨hc, hle⟩, hl]
    rw [Client_send_messages_for_port, if_pos hm, he, if_neg (lt_irrefl _), sub_self]

theorem bump_mutates_only_examined_witness :
    Client_send_messages_for_port 2 0 ((⟨0, 1, [7]⟩ : Message) :: []) 1 1 =
      ((Client_send_messages_for_port 2 0 [] 1 1).1,
        ⟨0, 0, [7]⟩ :: (Client_send_messages_for_port 2 0 [] 1 1).2) :=
  (bump_mutates_only_examined 2 0 1 (by decide)).2 ⟨0, 1, [7]⟩ [] 1 1
    rfl (by decide) (by decide) (by decide)



/-- Each per-port write batch produced by the period scheduler's send phase
belongs to one of the registered send ports. -/
lemma cp_batches_ports (n : Nat) :
    ∀ (ps : List Nat) (q : List Message) (pr : Nat × List (ℤ × List Nat)),
      pr ∈ (Client_process n ps q).1 → pr.1 ∈ ps := by
  intro ps
  induction ps with
  | nil => intro q pr h; simp [Client_process] at h
  | cons p rest ih =>
    intro q pr h
    rw [Client_process] at h
    rcases List.mem_cons.mp h with rfl | h2
    · exact List.mem_cons_self _ _
    · exact List.mem_cons_of_mem p (ih _ pr h2)

/-- One full send phase leaves the subsequence of queue entries addressed
to a port that is not registered exactly as it was. -/
lemma cp_filter (n x : Nat) :
    ∀ (ps : List Nat) (q : List Message), x ∉ ps →
      ((Client_process n ps q).2).filter (fun m => m.port == x) =
        q.filter (fun m => m.port == x) := by
  intro ps
  induction ps with
  | nil => intro q _; rfl
  | cons p rest ih =>
    intro q hx
    have hxp : x ≠ p := fun h => hx (h ▸ List.mem_cons_self _ _)
    rw [Client_process]
    dsimp only
    rw [ih _ (fun h => hx (List.mem_cons_of_mem p h)),
      sp_filter_ne n p x hxp q 0 0]

/-- C10: a message whose destination port is not registered in the client's
send-port array is never serviced: over any number of scheduler periods the
subsequence of queue entries for that port — entries and scheduled times —
is exactly preserved, every write batch the scheduler emits is for some
registered port, and such an entry disappears only at client teardown,
which frees the whole queue.  The accompanying Port_init conjuncts record
the three ways a port fails to be registered: a discovered pre-existing
port is never registered, an input-flagged port never joins the send array,
and a port is rejected when the send array already has
MAX_PORTS_PER_CLIENT entries. -/
theorem unregistered_port_messages_persist (n x : Nat) (ps : List Nat)
    (q : List Message) (k : Nat) (hx : x ∉ ps) :
    (Client_process_iter n ps k q).filter (fun m => m.port == x) =
      q.filter (fun m => m.port == x) ∧
    (∀ pr ∈ (Client_process n ps q).1, pr.1 ≠ x) ∧
    (∀ (c : Client) (p flags : Nat), Port_init c true p flags = c) ∧
    (∀ (c : Client) (p flags : Nat), flags &&& JackPortIsInput ≠ 0 →
      (Port_init c false p flags).send_ports = c.send_ports) ∧
    (∀ (c : Client) (p flags : Nat),
      MAX_PORTS_PER_CLIENT ≤ c.send_ports.length →
      (Port_init c false p flags).send_ports = c.send_ports) ∧
    (∀ c : Client, (Client_dealloc c).midi_send_queue = []) := by
  refine ⟨?_, ?_, ?_, ?_, ?_, ?_⟩
  · induction k generalizing q with
    | zero => rfl
    | succ k2 ih =>
      rw [Client_process_iter, ih ((Client_process n ps q).2), cp_filter n x ps q hx]
  · intro pr hpr h
    exact hx (h ▸ cp_batches_ports n ps q pr hpr)
  · intro c p flags
    rw [Port_init, if_pos rfl]
  · intro c p flags hf
    rw [Port_init, if_neg (by simp), if_pos hf]
    split <;> rfl
  · intro c p flags hlen
    rw [Port_init, if_neg (by simp)]
    split
    · split <;> rfl
    · split
      · rfl
      · rfl
  · intro c
    rfl

theorem unregistered_port_messages_persist_witness :
    (Client_process_iter 2 [0] 2 [⟨5, 3, [1]⟩, ⟨0, 0, [2]⟩]).filter
        (fun m => m.port == 5) =
      ([⟨5, 3, [1]⟩, ⟨0, 0, [2]⟩] : List Message).filter (fun m => m.port == 5) :=
  (unregistered_port_messages_persist 2 5 [0] [⟨5, 3, [1]⟩, ⟨0, 0, [2]⟩] 2
    (by decide)).1


end Jackpatch
